import Mathlib

/-!
Verification of the bounded-concurrency asynchronous file-copy pipeline of the
`msu-special-seminar` repository (directory `02_async_io`).

The main model below is a shallow embedding of `io-uring-cp.c`: the per-slot
block state machine (`BlockStatus`, `prepare_read_request`,
`prepare_write_request`, `finish_write_request`), the driver's completion
dispatch (`handle_event`, translated from the body of `main`'s completion
loop), and a step relation `Step` that interleaves kernel completions of the
outstanding operations in arbitrary order.  File contents are modelled as
lists of bytes (`Nat`); the kernel's `pread`/`pwrite` semantics are
`kernelReadApply`/`kernelWriteApply`.

A second, executable model (`Aio*` definitions) embeds the control flow of
`linux-aio-cp.c` under the deterministic schedule in which every submitted
operation completes before the next `io_getevents` returns; it is used to
evaluate concrete runs of that backend.

C integer types are modelled by `Nat`.  In the C sources `src_off` is an
`off_t`, `src_size` a `uint32_t` and `num_block_in_progress` a `uint16_t`;
under the invariants proved below (`0 <= src_off <= src_size`,
`num_block_in_progress <= QUEUE_SIZE < 2^16`) none of the arithmetic below
wraps, so plain `Nat` arithmetic agrees with the C arithmetic on all states
the program reaches.  Where the C source itself rounds modulo `2^32`
(`linux-aio-cp.c` line 110 computes in `uint32_t`), the model keeps the
explicit `% 2^32`.
-/

namespace AsyncCp

/-- Block stage, from `io-uring-cp.c` lines 19-23. -/
inductive BlockStage where
  | BLOCK_IDLE
  | BLOCK_IN_READ
  | BLOCK_IN_WRITE
deriving DecidableEq, Repr

export BlockStage (BLOCK_IDLE BLOCK_IN_READ BLOCK_IN_WRITE)

/-- Per-slot status, from `struct BlockStatus` (`io-uring-cp.c` lines 25-31). -/
structure BlockStatus where
  stage : BlockStage
  offset : Nat
  size : Nat
deriving DecidableEq, Repr

/-- The all-zero slot produced by `init_copying_status` (lines 62-64). -/
def idleBlock : BlockStatus := ⟨BLOCK_IDLE, 0, 0⟩

/-- One submission-queue entry as prepared by `io_uring_prep_read_fixed` /
`io_uring_prep_write_fixed` (`io-uring-cp.c` lines 121-123 and 143-145):
direction, the cell (`user_data`), the file offset and the requested length.
Both call sites pass `READ_BLOCK_SIZE` as the length. -/
structure Sqe where
  isWrite : Bool
  cell : Nat
  offset : Nat
  len : Nat
deriving DecidableEq, Repr

/-- The pipeline state, from `struct CopyStatus` (`io-uring-cp.c` lines
33-49), extended with the model of the world the C program manipulates
through the kernel: the per-cell intermediate buffers (`aligned_buffers`),
the destination file contents, and the log of submitted SQEs. -/
structure CopyStatus where
  src_off : Nat
  src_size : Nat
  num_block_in_progress : Nat
  block_statuses : List BlockStatus
  buffers : Nat → Nat → Nat
  dst : Nat → Nat
  submitted : List Sqe

/-- Slot lookup, `status->block_statuses[cell]`. -/
def blk (st : CopyStatus) (cell : Nat) : BlockStatus :=
  st.block_statuses.getD cell idleBlock

/-- The C ternary `(bytes_left < READ_BLOCK_SIZE) ? bytes_left :
READ_BLOCK_SIZE` of `io-uring-cp.c` line 116. -/
def chunkSize (B bytes_left : Nat) : Nat :=
  if bytes_left < B then bytes_left else B

/-- Translation of `prepare_read_request` (`io-uring-cp.c` lines 103-132).
`B` is `READ_BLOCK_SIZE`; the local `bytes_left = src_size - src_off` is
inlined.  Note that line 123 passes `READ_BLOCK_SIZE` (not `block->size`) as
the length of the submitted read. -/
def prepare_read_request (B : Nat) (st : CopyStatus) (cell : Nat) : CopyStatus :=
  if st.src_size - st.src_off = 0 then
    st
  else
    { st with
      block_statuses := st.block_statuses.set cell
        ⟨BLOCK_IN_READ, st.src_off, chunkSize B (st.src_size - st.src_off)⟩,
      submitted := st.submitted ++ [⟨false, cell, st.src_off, B⟩],
      src_off := st.src_off + chunkSize B (st.src_size - st.src_off),
      num_block_in_progress := st.num_block_in_progress + 1 }

/-- Translation of `prepare_write_request` (`io-uring-cp.c` lines 134-151).
The write is submitted at `block->offset` with length `READ_BLOCK_SIZE`
(line 145). -/
def prepare_write_request (B : Nat) (st : CopyStatus) (cell : Nat) : CopyStatus :=
  { st with
    block_statuses := st.block_statuses.set cell { blk st cell with stage := BLOCK_IN_WRITE },
    submitted := st.submitted ++ [⟨true, cell, (blk st cell).offset, B⟩] }

/-- Translation of `finish_write_request` (`io-uring-cp.c` lines 153-163). -/
def finish_write_request (st : CopyStatus) (cell : Nat) : CopyStatus :=
  { st with
    block_statuses := st.block_statuses.set cell { blk st cell with stage := BLOCK_IDLE },
    num_block_in_progress := st.num_block_in_progress - 1 }

/-- The driver's handling of one completion event, translated from the body
of the completion loop in `main` (`io-uring-cp.c` lines 219-241): dispatch on
the stage of the slot named by the event's `user_data`; a negative `res` on a
read or write in progress is fatal (`exit(EXIT_FAILURE)`, modelled as
`none`); an event for an idle slot falls through both branches and leaves the
state untouched. -/
def handle_event (B : Nat) (st : CopyStatus) (cell : Nat) (res : Int) : Option CopyStatus :=
  if (blk st cell).stage = BLOCK_IN_READ then
    if res < 0 then none
    else some (prepare_write_request B st cell)
  else if (blk st cell).stage = BLOCK_IN_WRITE then
    if res < 0 then none
    else some (prepare_read_request B (finish_write_request st cell) cell)
  else
    some st

/-- Kernel semantics of the outstanding fixed read of a cell: `pread` of `B`
bytes at the slot's offset transfers `min B (S - offset)` bytes from the
source into the cell's buffer and leaves the rest of the buffer unchanged. -/
def kernelReadApply (src : List Nat) (B : Nat) (st : CopyStatus) (cell : Nat) : CopyStatus :=
  { st with
    buffers := fun c i =>
      if c = cell ∧ i < min B (src.length - (blk st cell).offset) then
        src.getD ((blk st cell).offset + i) 0
      else st.buffers c i }

/-- Result returned by the kernel for the outstanding read of a cell. -/
def kernelReadResult (src : List Nat) (B : Nat) (st : CopyStatus) (cell : Nat) : Int :=
  (min B (src.length - (blk st cell).offset) : Nat)

/-- Kernel semantics of the outstanding fixed write of a cell: `pwrite` of
`B` bytes from the cell's buffer at the slot's offset (the destination was
pre-allocated, so the write transfers all `B` bytes). -/
def kernelWriteApply (B : Nat) (st : CopyStatus) (cell : Nat) : CopyStatus :=
  { st with
    dst := fun p =>
      if (blk st cell).offset ≤ p ∧ p < (blk st cell).offset + B then
        st.buffers cell (p - (blk st cell).offset)
      else st.dst p }

/-- Delivery of the completion of the operation outstanding on `cell`: the
kernel effect of the operation determined by the slot stage, followed by the
driver's `handle_event`.  An idle cell has no outstanding operation, hence no
completion to deliver. -/
def deliver (src : List Nat) (B : Nat) (st : CopyStatus) (cell : Nat) : Option CopyStatus :=
  match (blk st cell).stage with
  | BLOCK_IN_READ =>
      handle_event B (kernelReadApply src B st cell) cell (kernelReadResult src B st cell)
  | BLOCK_IN_WRITE =>
      handle_event B (kernelWriteApply B st cell) cell ((B : Nat) : Int)
  | BLOCK_IDLE => none

/-- One step of a run: some outstanding operation completes and the driver
processes its event.  Completions may be delivered in any order. -/
def Step (src : List Nat) (B : Nat) (st st' : CopyStatus) : Prop :=
  ∃ cell, deliver src B st cell = some st'

/-- Translation of `init_copying_status` (`io-uring-cp.c` lines 51-91),
restricted to the fields of the model: all `N` (`QUEUE_SIZE`) slots idle,
cursors and in-flight count zero.  The destination was created by
`open_dst_file` with `O_CREAT|O_TRUNC` and pre-allocated, so its bytes are
modelled as all zero. -/
def init_copying_status (src_size N : Nat) : CopyStatus :=
  { src_off := 0
    src_size := src_size
    num_block_in_progress := 0
    block_statuses := List.replicate N idleBlock
    buffers := fun _ _ => 0
    dst := fun _ => 0
    submitted := [] }

/-- The initial read loop of `main` (`io-uring-cp.c` lines 199-203): one
`prepare_read_request` per cell, in cell-index order. -/
def initial_reads (B : Nat) (st : CopyStatus) : CopyStatus :=
  (List.range st.block_statuses.length).foldl (fun s c => prepare_read_request B s c) st

/-- The pipeline state right before `main`'s completion loop, for a source
with contents `src`, block size `B` and pool size `N`:
`init_copying_status` followed by the initial read loop. -/
def initState (src : List Nat) (B N : Nat) : CopyStatus :=
  initial_reads B (init_copying_status src.length N)

/-- A state of a run of the io-uring pipeline on `src` with block size `B`
and pool size `N`. -/
def Reachable (src : List Nat) (B N : Nat) (st : CopyStatus) : Prop :=
  Relation.ReflTransGen (Step src B) (initState src B N) st

/-- Exit condition of `main`'s loop (`io-uring-cp.c` line 205, negated):
the run has terminated successfully. -/
def Terminal (st : CopyStatus) : Prop :=
  st.src_off = st.src_size ∧ st.num_block_in_progress = 0

/-- Number of non-idle slots. -/
def countNonIdle (st : CopyStatus) : Nat :=
  st.block_statuses.countP (fun b => !(b.stage == BLOCK_IDLE))

/-- Destination contents visible after `close_src_dst_files` truncated the
destination to `src_size` (`common.h` lines 67-73; `io-uring-cp.c` line 255
passes the unmodified source size). -/
def truncatedDst (st : CopyStatus) : List Nat :=
  (List.range st.src_size).map st.dst

/-- Executable multi-step driver: deliver completions for the given list of
cells in order. -/
def deliverN (src : List Nat) (B : Nat) : List Nat → CopyStatus → Option CopyStatus
  | [], st => some st
  | c :: cs, st =>
    match deliver src B st c with
    | some st' => deliverN src B cs st'
    | none => none

/-- Run invariant of the io-uring pipeline.  `N` is `QUEUE_SIZE`. -/
structure Inv (src : List Nat) (B N : Nat) (st : CopyStatus) : Prop where
  size_eq : st.src_size = src.length
  off_le : st.src_off ≤ st.src_size
  len_eq : st.block_statuses.length = N
  num_eq : st.num_block_in_progress = countNonIdle st
  slot_size : ∀ c, (blk st c).stage ≠ BLOCK_IDLE →
      (blk st c).size = min B (st.src_size - (blk st c).offset)
  slot_le : ∀ c, (blk st c).stage ≠ BLOCK_IDLE →
      (blk st c).offset + (blk st c).size ≤ st.src_off
  buf_ok : ∀ c, (blk st c).stage = BLOCK_IN_WRITE →
      ∀ i, i < (blk st c).size → st.buffers c i = src.getD ((blk st c).offset + i) 0
  log_ok : ∀ c, (blk st c).stage ≠ BLOCK_IDLE →
      (⟨false, c, (blk st c).offset, B⟩ : Sqe) ∈ st.submitted
  cover : ∀ p, p < st.src_off →
      st.dst p = src.getD p 0 ∨
      ∃ c, (blk st c).stage ≠ BLOCK_IDLE ∧
        (blk st c).offset ≤ p ∧ p < (blk st c).offset + (blk st c).size

/-! ### Executable model of the `linux-aio-cp.c` backend

`linux-aio-cp.c` (and, with other constants, `posix-aio-cp.c`) differs from
the io-uring backend: it overwrites `src_size` with a rounded value
(line 110), always submits block-sized reads, shortens the following write to
the number of bytes the read returned, and detects end-of-file by a
zero-length read.  The model below follows `main` of `linux-aio-cp.c` under
the deterministic schedule in which every operation in the submit list
completes and is reported by the next `io_getevents`, in list order.  Kernel
semantics as above: a read at `offset` of `nbytes` returns
`min nbytes (S_actual - offset)` bytes, a write transfers all its bytes. -/

/-- One AIO control block (`struct iocb`): direction, buffer cell
(`u.c.buf`), byte count (`u.c.nbytes`) and file offset (`u.c.offset`). -/
structure Iocb where
  isWrite : Bool
  buf : Nat
  nbytes : Nat
  offset : Nat
deriving DecidableEq, Repr

/-- State of `main` of `linux-aio-cp.c`: the (mutated) `src_size`, the read
cursor `src_off`, the count of active I/Os `num_io_reqs`, the submit list of
the next iteration, plus two observers: how many read requests were set up,
and the `(offset, nbytes)` of every completed write. -/
structure AioState where
  src_size : Nat
  src_off : Nat
  num_io_reqs : Nat
  pending : List Iocb
  reads_issued : Nat
  writes : List (Nat × Nat)
deriving DecidableEq, Repr

/-- Rounding of the tracked size, `linux-aio-cp.c` line 110:
`src_size = src_size + READ_BLOCK_SIZE - (src_size % READ_BLOCK_SIZE)`,
computed in `uint32_t`. -/
def aioRound (src_size B : Nat) : Nat :=
  (src_size + B - src_size % B) % 2 ^ 32

/-- The initial read loop, `linux-aio-cp.c` lines 113-124: walk the cells in
order while `src_off < src_size` (the rounded size), setting up one
block-sized read per cell. -/
def aioInitLoop (B : Nat) : List Nat → AioState → AioState
  | [], st => st
  | i :: is, st =>
    if st.src_off < st.src_size then
      aioInitLoop B is
        { st with
          pending := st.pending ++ [⟨false, i, B, st.src_off⟩],
          src_off := st.src_off + B,
          num_io_reqs := st.num_io_reqs + 1,
          reads_issued := st.reads_issued + 1 }
    else st

/-- Handling of one completed event, `linux-aio-cp.c` lines 148-191.
`S_actual` is the real source size (the kernel's view); a completed read
returns `min nbytes (S_actual - offset)` bytes, a completed write returns
`nbytes`. -/
def aioHandleEvent (S_actual B : Nat) (st : AioState) (io : Iocb) : AioState :=
  if io.isWrite = false then
    if min io.nbytes (S_actual - io.offset) ≠ 0 then
      { st with pending := st.pending ++ [⟨true, io.buf, min io.nbytes (S_actual - io.offset), io.offset⟩] }
    else
      { st with num_io_reqs := st.num_io_reqs - 1 }
  else
    if io.nbytes ≠ 0 ∧ st.src_off < st.src_size then
      { st with
        writes := st.writes ++ [(io.offset, io.nbytes)],
        pending := st.pending ++ [⟨false, io.buf, B, st.src_off⟩],
        src_off := st.src_off + B,
        reads_issued := st.reads_issued + 1 }
    else
      { st with
        writes := st.writes ++ [(io.offset, io.nbytes)],
        num_io_reqs := st.num_io_reqs - 1 }

/-- One iteration of the main loop (`linux-aio-cp.c` lines 128-192) under the
deterministic schedule: submit the pending list, wait, and handle all its
events in order, collecting next iteration's submit list. -/
def aioIteration (S_actual B : Nat) (st : AioState) : AioState :=
  st.pending.foldl (aioHandleEvent S_actual B) { st with pending := [] }

/-- The main loop, with fuel: cycle while `num_io_reqs != 0`.  Returns `none`
when the fuel runs out before the loop exits. -/
def aioLoop (S_actual B : Nat) : Nat → AioState → Option AioState
  | 0, st => if st.num_io_reqs = 0 then some st else none
  | fuel + 1, st =>
    if st.num_io_reqs = 0 then some st
    else aioLoop S_actual B fuel (aioIteration S_actual B st)

/-- A full run of `main` of `linux-aio-cp.c` on a source of `S_actual` bytes:
round the tracked size, start the initial reads, run the loop. -/
def aioMain (S_actual B N fuel : Nat) : Option AioState :=
  aioLoop S_actual B fuel
    (aioInitLoop B (List.range N)
      { src_size := aioRound S_actual B, src_off := 0, num_io_reqs := 0,
        pending := [], reads_issued := 0, writes := [] })

/-- `READ_BLOCK_SIZE` of `linux-aio-cp.c` (line 12). -/
def AIO_READ_BLOCK_SIZE : Nat := 8192

/-- `QUEUE_SIZE` of `linux-aio-cp.c` (line 13). -/
def AIO_QUEUE_SIZE : Nat := 64

/-- The argument `main` of `linux-aio-cp.c` passes to `close_src_dst_files`
as the truncation size (line 198): the mutated, rounded `src_size`.
`close_src_dst_files` calls `ftruncate(dst_fd, src_size)` (`common.h` line
68), so this is the destination's final size. -/
def aioTruncateArg (st : AioState) : Nat := st.src_size

/-- The write-completion branch of `main` of `linux-aio-cp.c` (lines
172-190), for an arbitrary completion result `bytes_written =
events[ev].res` (an `int`, negative on failure).  The driver tests only
`bytes_written != 0 && src_off < src_size`; there is no abort path: a
negative result is nonzero and is handled like a success (a new read is set
up and `src_off` advances), and a zero result retires the slot
(`num_io_reqs -= 1`) without any resubmission, whatever the cursor.
`aioHandleEvent` above instantiates this dispatch at the successful-kernel
result `io.nbytes` (see `aioHandleEvent_write_eq`). -/
def aioHandleWriteCompletion (B : Nat) (st : AioState) (io : Iocb) (bytes_written : Int) :
    AioState :=
  if bytes_written ≠ 0 ∧ st.src_off < st.src_size then
    { st with
      writes := st.writes ++ [(io.offset, io.nbytes)],
      pending := st.pending ++ [⟨false, io.buf, B, st.src_off⟩],
      src_off := st.src_off + B,
      reads_issued := st.reads_issued + 1 }
  else
    { st with
      writes := st.writes ++ [(io.offset, io.nbytes)],
      num_io_reqs := st.num_io_reqs - 1 }

/-- A concrete in-flight write control block of the linux-aio backend. -/
def ioW : Iocb := ⟨true, 0, 8192, 0⟩

/-- A concrete `linux-aio-cp.c` state mid-transfer: tracked size 24576,
cursor 8192 (so `src_off < src_size`), one active I/O. -/
def aioStW : AioState :=
  { src_size := 24576, src_off := 8192, num_io_reqs := 1,
    pending := [], reads_issued := 1, writes := [] }

/-! ### Concrete states used to exercise the io-uring model -/

/-- A concrete two-byte source. -/
def srcW : List Nat := [7, 9]

/-- The io-uring pipeline on `srcW` with block size 1 and pool size 1, right
before the completion loop. -/
def initW : CopyStatus := initState srcW 1 1

/-- The state after the four completions (read, write, read, write on cell
0) that copy `srcW`. -/
def finalW : CopyStatus := (deliverN srcW 1 [0, 0, 0, 0] initW).getD initW

/-- A concrete pipeline state in the middle of a 20000-byte transfer whose
only slot has a write of 8192 bytes at offset 0 in flight. -/
def stShortWrite : CopyStatus :=
  { src_off := 8192
    src_size := 20000
    num_block_in_progress := 1
    block_statuses := [⟨BLOCK_IN_WRITE, 0, 8192⟩]
    buffers := fun _ _ => 0
    dst := fun _ => 0
    submitted := [⟨false, 0, 0, 8192⟩] }

/-! ### Helper lemmas -/

theorem getD_set_self {α : Type} (l : List α) (i : Nat) (a d : α) (h : i < l.length) :
    (l.set i a).getD i d = a := by
  rw [List.getD_eq_getElem?_getD, List.getElem?_set_self h]
  rfl

theorem getD_set_ne {α : Type} (l : List α) {i j : Nat} (a d : α) (h : i ≠ j) :
    (l.set i a).getD j d = l.getD j d := by
  rw [List.getD_eq_getElem?_getD, List.getElem?_set_ne h, List.getD_eq_getElem?_getD]

theorem getD_of_le {α : Type} (l : List α) {i : Nat} (d : α) (h : l.length ≤ i) :
    l.getD i d = d := by
  rw [List.getD_eq_getElem?_getD, List.getElem?_eq_none h]
  rfl

theorem countP_set_eq {α : Type} (p : α → Bool) (l : List α) (i : Nat) (a : α)
    (h : i < l.length) :
    (l.set i a).countP p + (if p (l.getD i a) then 1 else 0)
      = l.countP p + (if p a then 1 else 0) := by
  induction l generalizing i with
  | nil => simp at h
  | cons x xs ih =>
    cases i with
    | zero =>
      simp only [List.set_cons_zero, List.countP_cons, List.getD_cons_zero]
      omega
    | succ n =>
      have h' : n < xs.length := by simpa using h
      simp only [List.set_cons_succ, List.countP_cons, List.getD_cons_succ]
      have := ih n h'
      omega

theorem chunkSize_eq_min (B left : Nat) : chunkSize B left = min B left := by
  unfold chunkSize
  split <;> omega

theorem blk_lt_of_ne_idle {st : CopyStatus} {c : Nat} (h : (blk st c).stage ≠ BLOCK_IDLE) :
    c < st.block_statuses.length := by
  by_contra hc
  push_neg at hc
  rw [blk, getD_of_le _ _ hc] at h
  exact h rfl

/-! ### Projection lemmas for the pipeline operations -/

@[simp] theorem kernelReadApply_src_off (src : List Nat) (B : Nat) (st : CopyStatus) (cell : Nat) :
    (kernelReadApply src B st cell).src_off = st.src_off := rfl

@[simp] theorem kernelReadApply_src_size (src : List Nat) (B : Nat) (st : CopyStatus) (cell : Nat) :
    (kernelReadApply src B st cell).src_size = st.src_size := rfl

@[simp] theorem kernelReadApply_num (src : List Nat) (B : Nat) (st : CopyStatus) (cell : Nat) :
    (kernelReadApply src B st cell).num_block_in_progress = st.num_block_in_progress := rfl

@[simp] theorem kernelReadApply_blocks (src : List Nat) (B : Nat) (st : CopyStatus) (cell : Nat) :
    (kernelReadApply src B st cell).block_statuses = st.block_statuses := rfl

@[simp] theorem kernelReadApply_dst (src : List Nat) (B : Nat) (st : CopyStatus) (cell : Nat) :
    (kernelReadApply src B st cell).dst = st.dst := rfl

@[simp] theorem kernelReadApply_submitted (src : List Nat) (B : Nat) (st : CopyStatus) (cell : Nat) :
    (kernelReadApply src B st cell).submitted = st.submitted := rfl

@[simp] theorem blk_kernelReadApply (src : List Nat) (B : Nat) (st : CopyStatus) (cell c : Nat) :
    blk (kernelReadApply src B st cell) c = blk st c := rfl

@[simp] theorem kernelWriteApply_src_off (B : Nat) (st : CopyStatus) (cell : Nat) :
    (kernelWriteApply B st cell).src_off = st.src_off := rfl

@[simp] theorem kernelWriteApply_src_size (B : Nat) (st : CopyStatus) (cell : Nat) :
    (kernelWriteApply B st cell).src_size = st.src_size := rfl

@[simp] theorem kernelWriteApply_num (B : Nat) (st : CopyStatus) (cell : Nat) :
    (kernelWriteApply B st cell).num_block_in_progress = st.num_block_in_progress := rfl

@[simp] theorem kernelWriteApply_blocks (B : Nat) (st : CopyStatus) (cell : Nat) :
    (kernelWriteApply B st cell).block_statuses = st.block_statuses := rfl

@[simp] theorem kernelWriteApply_buffers (B : Nat) (st : CopyStatus) (cell : Nat) :
    (kernelWriteApply B st cell).buffers = st.buffers := rfl

@[simp] theorem kernelWriteApply_submitted (B : Nat) (st : CopyStatus) (cell : Nat) :
    (kernelWriteApply B st cell).submitted = st.submitted := rfl

@[simp] theorem blk_kernelWriteApply (B : Nat) (st : CopyStatus) (cell c : Nat) :
    blk (kernelWriteApply B st cell) c = blk st c := rfl

@[simp] theorem prepare_write_src_off (B : Nat) (st : CopyStatus) (cell : Nat) :
    (prepare_write_request B st cell).src_off = st.src_off := rfl

@[simp] theorem prepare_write_src_size (B : Nat) (st : CopyStatus) (cell : Nat) :
    (prepare_write_request B st cell).src_size = st.src_size := rfl

@[simp] theorem prepare_write_num (B : Nat) (st : CopyStatus) (cell : Nat) :
    (prepare_write_request B st cell).num_block_in_progress = st.num_block_in_progress := rfl

@[simp] theorem prepare_write_buffers (B : Nat) (st : CopyStatus) (cell : Nat) :
    (prepare_write_request B st cell).buffers = st.buffers := rfl

@[simp] theorem prepare_write_dst (B : Nat) (st : CopyStatus) (cell : Nat) :
    (prepare_write_request B st cell).dst = st.dst := rfl

@[simp] theorem prepare_write_blocks (B : Nat) (st : CopyStatus) (cell : Nat) :
    (prepare_write_request B st cell).block_statuses
      = st.block_statuses.set cell { blk st cell with stage := BLOCK_IN_WRITE } := rfl

@[simp] theorem prepare_write_submitted (B : Nat) (st : CopyStatus) (cell : Nat) :
    (prepare_write_request B st cell).submitted
      = st.submitted ++ [⟨true, cell, (blk st cell).offset, B⟩] := rfl

@[simp] theorem finish_write_src_off (st : CopyStatus) (cell : Nat) :
    (finish_write_request st cell).src_off = st.src_off := rfl

@[simp] theorem finish_write_src_size (st : CopyStatus) (cell : Nat) :
    (finish_write_request st cell).src_size = st.src_size := rfl

@[simp] theorem finish_write_num (st : CopyStatus) (cell : Nat) :
    (finish_write_request st cell).num_block_in_progress = st.num_block_in_progress - 1 := rfl

@[simp] theorem finish_write_buffers (st : CopyStatus) (cell : Nat) :
    (finish_write_request st cell).buffers = st.buffers := rfl

@[simp] theorem finish_write_dst (st : CopyStatus) (cell : Nat) :
    (finish_write_request st cell).dst = st.dst := rfl

@[simp] theorem finish_write_submitted (st : CopyStatus) (cell : Nat) :
    (finish_write_request st cell).submitted = st.submitted := rfl

@[simp] theorem finish_write_blocks (st : CopyStatus) (cell : Nat) :
    (finish_write_request st cell).block_statuses
      = st.block_statuses.set cell { blk st cell with stage := BLOCK_IDLE } := rfl

theorem prepare_read_of_eof {st : CopyStatus} (B cell : Nat)
    (h : st.src_size - st.src_off = 0) : prepare_read_request B st cell = st := by
  simp [prepare_read_request, h]

theorem prepare_read_of_left {st : CopyStatus} (B cell : Nat)
    (h : st.src_size - st.src_off ≠ 0) :
    prepare_read_request B st cell =
      { st with
        block_statuses := st.block_statuses.set cell
          ⟨BLOCK_IN_READ, st.src_off, chunkSize B (st.src_size - st.src_off)⟩,
        submitted := st.submitted ++ [⟨false, cell, st.src_off, B⟩],
        src_off := st.src_off + chunkSize B (st.src_size - st.src_off),
        num_block_in_progress := st.num_block_in_progress + 1 } := by
  simp [prepare_read_request, h]

/-! ### Characterization of `deliver` -/

theorem deliver_of_idle {st : CopyStatus} (src : List Nat) (B : Nat) {cell : Nat}
    (h : (blk st cell).stage = BLOCK_IDLE) : deliver src B st cell = none := by
  unfold deliver
  rw [h]

theorem deliver_of_in_read {st : CopyStatus} (src : List Nat) (B : Nat) {cell : Nat}
    (h : (blk st cell).stage = BLOCK_IN_READ) :
    deliver src B st cell
      = some (prepare_write_request B (kernelReadApply src B st cell) cell) := by
  unfold deliver
  rw [h]
  have hres : ¬ (kernelReadResult src B st cell < 0) := by
    simp [kernelReadResult, Int.not_lt]
  simp [handle_event, blk_kernelReadApply, h, hres]

theorem deliver_of_in_write {st : CopyStatus} (src : List Nat) (B : Nat) {cell : Nat}
    (h : (blk st cell).stage = BLOCK_IN_WRITE) :
    deliver src B st cell
      = some (prepare_read_request B
          (finish_write_request (kernelWriteApply B st cell) cell) cell) := by
  unfold deliver
  rw [h]
  have hres : ¬ (((B : Nat) : Int) < 0) := by
    simp [Int.not_lt]
  simp [handle_event, blk_kernelWriteApply, h, hres]

theorem kernelReadApply_buffers_self (src : List Nat) (B : Nat) (st : CopyStatus) (cell i : Nat)
    (hi : i < min B (src.length - (blk st cell).offset)) :
    (kernelReadApply src B st cell).buffers cell i = src.getD ((blk st cell).offset + i) 0 := by
  have heq : (kernelReadApply src B st cell).buffers cell i
      = if cell = cell ∧ i < min B (src.length - (blk st cell).offset) then
          src.getD ((blk st cell).offset + i) 0
        else st.buffers cell i := rfl
  rw [heq, if_pos ⟨rfl, hi⟩]

theorem kernelReadApply_buffers_ne (src : List Nat) (B : Nat) (st : CopyStatus) {cell c : Nat}
    (i : Nat) (hne : c ≠ cell) :
    (kernelReadApply src B st cell).buffers c i = st.buffers c i := by
  have heq : (kernelReadApply src B st cell).buffers c i
      = if c = cell ∧ i < min B (src.length - (blk st cell).offset) then
          src.getD ((blk st cell).offset + i) 0
        else st.buffers c i := rfl
  rw [heq, if_neg (fun hh => hne hh.1)]

theorem kernelWriteApply_dst_eq (B : Nat) (st : CopyStatus) (cell p : Nat) :
    (kernelWriteApply B st cell).dst p
      = if (blk st cell).offset ≤ p ∧ p < (blk st cell).offset + B then
          st.buffers cell (p - (blk st cell).offset)
        else st.dst p := rfl

/-! ### Invariant preservation -/

theorem prepare_read_inv {src : List Nat} {B N : Nat} {st : CopyStatus} {cell : Nat}
    (hInv : Inv src B N st) (hc : cell < st.block_statuses.length)
    (hidle : (blk st cell).stage = BLOCK_IDLE) :
    Inv src B N (prepare_read_request B st cell) := by
  by_cases h0 : st.src_size - st.src_off = 0
  · rw [prepare_read_of_eof B cell h0]
    exact hInv
  · rw [prepare_read_of_left B cell h0]
    have hoff : st.src_off < st.src_size := by
      have := hInv.off_le
      omega
    have hsmin : chunkSize B (st.src_size - st.src_off) = min B (st.src_size - st.src_off) :=
      chunkSize_eq_min B (st.src_size - st.src_off)
    have hblk_old : st.block_statuses.getD cell
        ⟨BLOCK_IN_READ, st.src_off, chunkSize B (st.src_size - st.src_off)⟩ = blk st cell := by
      rw [List.getD_eq_getElem _ _ hc, blk, List.getD_eq_getElem _ _ hc]
    refine ⟨hInv.size_eq, ?_, ?_, ?_, ?_, ?_, ?_, ?_, ?_⟩
    · show st.src_off + chunkSize B (st.src_size - st.src_off) ≤ st.src_size
      omega
    · show (st.block_statuses.set cell _).length = N
      rw [List.length_set]
      exact hInv.len_eq
    · show st.num_block_in_progress + 1 = countNonIdle _
      have hcnt := countP_set_eq (fun b => !(b.stage == BLOCK_IDLE)) st.block_statuses cell
        ⟨BLOCK_IN_READ, st.src_off, chunkSize B (st.src_size - st.src_off)⟩ hc
      rw [hblk_old] at hcnt
      simp only [hidle] at hcnt
      simp only [countNonIdle, hInv.num_eq]
      simp at hcnt
      omega
    · intro c hcne
      by_cases hcc : c = cell
      · subst hcc
        simp only [blk] at hcne ⊢
        rw [getD_set_self _ _ _ _ hc] at hcne ⊢
        simpa using hsmin
      · simp only [blk] at hcne ⊢
        rw [getD_set_ne _ _ _ (fun hh => hcc hh.symm)] at hcne ⊢
        exact hInv.slot_size c hcne
    · intro c hcne
      by_cases hcc : c = cell
      · subst hcc
        simp only [blk] at hcne ⊢
        rw [getD_set_self _ _ _ _ hc]
      · simp only [blk] at hcne ⊢
        rw [getD_set_ne _ _ _ (fun hh => hcc hh.symm)] at hcne ⊢
        have := hInv.slot_le c hcne
        simp only [blk] at this
        omega
    · intro c hcw
      by_cases hcc : c = cell
      · subst hcc
        simp only [blk] at hcw
        rw [getD_set_self _ _ _ _ hc] at hcw
        simp at hcw
      · simp only [blk] at hcw ⊢
        rw [getD_set_ne _ _ _ (fun hh => hcc hh.symm)] at hcw ⊢
        exact hInv.buf_ok c hcw
    · intro c hcne
      by_cases hcc : c = cell
      · subst hcc
        simp only [blk] at hcne ⊢
        rw [getD_set_self _ _ _ _ hc] at hcne ⊢
        simp
      · simp only [blk] at hcne ⊢
        rw [getD_set_ne _ _ _ (fun hh => hcc hh.symm)] at hcne ⊢
        exact List.mem_append_left _ (hInv.log_ok c hcne)
    · intro p hp
      by_cases hplt : p < st.src_off
      · rcases hInv.cover p hplt with hdst | ⟨c, hcne, hlo, hhi⟩
        · exact Or.inl hdst
        · have hcc : c ≠ cell := by
            intro hh
            rw [hh, hidle] at hcne
            exact hcne rfl
          refine Or.inr ⟨c, ?_⟩
          simp only [blk] at hcne hlo hhi ⊢
          rw [getD_set_ne _ _ _ (fun hh => hcc hh.symm)]
          exact ⟨hcne, hlo, hhi⟩
      · refine Or.inr ⟨cell, ?_⟩
        simp only [blk]
        rw [getD_set_self _ _ _ _ hc]
        simp only
        refine ⟨by simp, by omega, by simpa using hp⟩

theorem read_step_inv {src : List Nat} {B N : Nat} {st : CopyStatus} {cell : Nat}
    (hInv : Inv src B N st) (h : (blk st cell).stage = BLOCK_IN_READ) :
    Inv src B N (prepare_write_request B (kernelReadApply src B st cell) cell) := by
  have hne : (blk st cell).stage ≠ BLOCK_IDLE := by simp [h]
  have hc : cell < st.block_statuses.length := blk_lt_of_ne_idle hne
  have hgd : st.block_statuses.getD cell { blk st cell with stage := BLOCK_IN_WRITE }
      = blk st cell := by
    rw [List.getD_eq_getElem _ _ hc, blk, List.getD_eq_getElem _ _ hc]
  refine ⟨hInv.size_eq, hInv.off_le, ?_, ?_, ?_, ?_, ?_, ?_, ?_⟩
  · simp only [prepare_write_blocks, kernelReadApply_blocks, blk_kernelReadApply,
      List.length_set]
    exact hInv.len_eq
  · have hcnt := countP_set_eq (fun b => !(b.stage == BLOCK_IDLE)) st.block_statuses cell
      { blk st cell with stage := BLOCK_IN_WRITE } hc
    rw [hgd] at hcnt
    simp only [h] at hcnt
    simp only [countNonIdle, prepare_write_blocks, kernelReadApply_blocks, blk_kernelReadApply,
      prepare_write_num, kernelReadApply_num]
    simp at hcnt
    rw [hInv.num_eq]
    simp only [countNonIdle]
    omega
  · intro c hcne
    simp only [blk, prepare_write_blocks, kernelReadApply_blocks, blk_kernelReadApply,
      prepare_write_src_size, kernelReadApply_src_size] at hcne ⊢
    by_cases hcc : c = cell
    · subst hcc
      rw [getD_set_self _ _ _ _ hc] at hcne ⊢
      have hss := hInv.slot_size c hne
      simp only [blk] at hss
      simpa using hss
    · rw [getD_set_ne _ _ _ (fun hh => hcc hh.symm)] at hcne ⊢
      exact hInv.slot_size c hcne
  · intro c hcne
    simp only [blk, prepare_write_blocks, kernelReadApply_blocks, blk_kernelReadApply,
      prepare_write_src_off, kernelReadApply_src_off] at hcne ⊢
    by_cases hcc : c = cell
    · subst hcc
      rw [getD_set_self _ _ _ _ hc] at hcne ⊢
      have hsl := hInv.slot_le c hne
      simp only [blk] at hsl
      simpa using hsl
    · rw [getD_set_ne _ _ _ (fun hh => hcc hh.symm)] at hcne ⊢
      exact hInv.slot_le c hcne
  · intro c hcw
    simp only [blk, prepare_write_blocks, kernelReadApply_blocks, blk_kernelReadApply,
      prepare_write_buffers] at hcw ⊢
    by_cases hcc : c = cell
    · subst hcc
      rw [getD_set_self _ _ _ _ hc] at hcw ⊢
      intro i hi
      simp only at hi ⊢
      have hmin : (blk st c).size = min B (src.length - (blk st c).offset) := by
        have := hInv.slot_size c hne
        rw [hInv.size_eq] at this
        exact this
      have hi' : i < min B (src.length - (blk st c).offset) := by
        rw [← hmin]
        exact hi
      exact kernelReadApply_buffers_self src B st c i hi'
    · rw [getD_set_ne _ _ _ (fun hh => hcc hh.symm)] at hcw ⊢
      intro i hi
      rw [kernelReadApply_buffers_ne src B st i hcc]
      exact hInv.buf_ok c hcw i hi
  · intro c hcne
    simp only [blk, prepare_write_blocks, kernelReadApply_blocks, blk_kernelReadApply,
      prepare_write_submitted, kernelReadApply_submitted] at hcne ⊢
    by_cases hcc : c = cell
    · subst hcc
      rw [getD_set_self _ _ _ _ hc] at hcne ⊢
      simp only
      exact List.mem_append_left _ (hInv.log_ok c hne)
    · rw [getD_set_ne _ _ _ (fun hh => hcc hh.symm)] at hcne ⊢
      exact List.mem_append_left _ (hInv.log_ok c hcne)
  · intro p hp
    simp only [prepare_write_src_off, kernelReadApply_src_off] at hp
    rcases hInv.cover p hp with hdst | ⟨c, hcne, hlo, hhi⟩
    · exact Or.inl hdst
    · refine Or.inr ⟨c, ?_⟩
      simp only [blk, prepare_write_blocks, kernelReadApply_blocks, blk_kernelReadApply]
      by_cases hcc : c = cell
      · subst hcc
        rw [getD_set_self _ _ _ _ hc]
        simp only [blk] at hcne hlo hhi
        refine ⟨by simp, by simpa using hlo, by simpa using hhi⟩
      · rw [getD_set_ne _ _ _ (fun hh => hcc hh.symm)]
        simp only [blk] at hcne hlo hhi
        exact ⟨hcne, hlo, hhi⟩

theorem write_step_inv {src : List Nat} {B N : Nat} {st : CopyStatus} {cell : Nat}
    (hInv : Inv src B N st) (h : (blk st cell).stage = BLOCK_IN_WRITE) :
    Inv src B N (prepare_read_request B
      (finish_write_request (kernelWriteApply B st cell) cell) cell) := by
  have hne : (blk st cell).stage ≠ BLOCK_IDLE := by simp [h]
  have hc : cell < st.block_statuses.length := blk_lt_of_ne_idle hne
  have hsize := hInv.slot_size cell hne
  have hle := hInv.slot_le cell hne
  have hoffle := hInv.off_le
  have hgd : st.block_statuses.getD cell { blk st cell with stage := BLOCK_IDLE }
      = blk st cell := by
    rw [List.getD_eq_getElem _ _ hc, blk, List.getD_eq_getElem _ _ hc]
  have hdst_new : ∀ p, p < st.src_off →
      ((blk st cell).offset ≤ p ∧ p < (blk st cell).offset + B) →
      (kernelWriteApply B st cell).dst p = src.getD p 0 := by
    rintro p hp ⟨h1, h2⟩
    rw [kernelWriteApply_dst_eq, if_pos ⟨h1, h2⟩]
    have hps : p - (blk st cell).offset < (blk st cell).size := by
      omega
    have hbuf := hInv.buf_ok cell h (p - (blk st cell).offset) hps
    rw [hbuf]
    congr 1
    omega
  have hwin : ∀ p, (blk st cell).offset ≤ p →
      p < (blk st cell).offset + (blk st cell).size →
      (kernelWriteApply B st cell).dst p = src.getD p 0 := by
    intro p h1 h2
    exact hdst_new p (by omega) ⟨h1, by omega⟩
  have hkeep : ∀ p, p < st.src_off → st.dst p = src.getD p 0 →
      (kernelWriteApply B st cell).dst p = src.getD p 0 := by
    intro p hp hok
    by_cases hw : (blk st cell).offset ≤ p ∧ p < (blk st cell).offset + B
    · exact hdst_new p hp hw
    · rw [kernelWriteApply_dst_eq, if_neg hw]
      exact hok
  have hInv₂ : Inv src B N (finish_write_request (kernelWriteApply B st cell) cell) := by
    refine ⟨hInv.size_eq, hInv.off_le, ?_, ?_, ?_, ?_, ?_, ?_, ?_⟩
    · simp only [finish_write_blocks, kernelWriteApply_blocks, blk_kernelWriteApply,
        List.length_set]
      exact hInv.len_eq
    · have hcnt := countP_set_eq (fun b => !(b.stage == BLOCK_IDLE)) st.block_statuses cell
        { blk st cell with stage := BLOCK_IDLE } hc
      rw [hgd] at hcnt
      simp only [h] at hcnt
      simp only [countNonIdle, finish_write_blocks, kernelWriteApply_blocks,
        blk_kernelWriteApply, finish_write_num, kernelWriteApply_num]
      simp at hcnt
      rw [hInv.num_eq]
      simp only [countNonIdle]
      omega
    · intro c hcne
      simp only [blk, finish_write_blocks, kernelWriteApply_blocks, blk_kernelWriteApply,
        finish_write_src_size, kernelWriteApply_src_size] at hcne ⊢
      by_cases hcc : c = cell
      · subst hcc
        rw [getD_set_self _ _ _ _ hc] at hcne
        simp at hcne
      · rw [getD_set_ne _ _ _ (fun hh => hcc hh.symm)] at hcne ⊢
        exact hInv.slot_size c hcne
    · intro c hcne
      simp only [blk, finish_write_blocks, kernelWriteApply_blocks, blk_kernelWriteApply,
        finish_write_src_off, kernelWriteApply_src_off] at hcne ⊢
      by_cases hcc : c = cell
      · subst hcc
        rw [getD_set_self _ _ _ _ hc] at hcne
        simp at hcne
      · rw [getD_set_ne _ _ _ (fun hh => hcc hh.symm)] at hcne ⊢
        exact hInv.slot_le c hcne
    · intro c hcw
      simp only [blk, finish_write_blocks, kernelWriteApply_blocks, blk_kernelWriteApply,
        finish_write_buffers, kernelWriteApply_buffers] at hcw ⊢
      by_cases hcc : c = cell
      · subst hcc
        rw [getD_set_self _ _ _ _ hc] at hcw
        simp at hcw
      · rw [getD_set_ne _ _ _ (fun hh => hcc hh.symm)] at hcw ⊢
        exact hInv.buf_ok c hcw
    · intro c hcne
      simp only [blk, finish_write_blocks, kernelWriteApply_blocks, blk_kernelWriteApply,
        finish_write_submitted, kernelWriteApply_submitted] at hcne ⊢
      by_cases hcc : c = cell
      · subst hcc
        rw [getD_set_self _ _ _ _ hc] at hcne
        simp at hcne
      · rw [getD_set_ne _ _ _ (fun hh => hcc hh.symm)] at hcne ⊢
        exact hInv.log_ok c hcne
    · intro p hp
      simp only [finish_write_src_off, kernelWriteApply_src_off] at hp
      rcases hInv.cover p hp with hdst | ⟨c, hcne, hlo, hhi⟩
      · exact Or.inl (hkeep p hp hdst)
      · by_cases hcc : c = cell
        · subst hcc
          exact Or.inl (hwin p hlo hhi)
        · refine Or.inr ⟨c, ?_⟩
          simp only [blk, finish_write_blocks, kernelWriteApply_blocks, blk_kernelWriteApply]
          rw [getD_set_ne _ _ _ (fun hh => hcc hh.symm)]
          simp only [blk] at hcne hlo hhi
          exact ⟨hcne, hlo, hhi⟩
  have hidle₂ : (blk (finish_write_request (kernelWriteApply B st cell) cell) cell).stage
      = BLOCK_IDLE := by
    simp only [blk, finish_write_blocks, kernelWriteApply_blocks, blk_kernelWriteApply]
    rw [getD_set_self _ _ _ _ hc]
  have hc₂ :
      cell < (finish_write_request (kernelWriteApply B st cell) cell).block_statuses.length := by
    simp only [finish_write_blocks, kernelWriteApply_blocks, blk_kernelWriteApply,
      List.length_set]
    exact hc
  exact prepare_read_inv hInv₂ hc₂ hidle₂

theorem prepare_read_length (B : Nat) (st : CopyStatus) (cell : Nat) :
    (prepare_read_request B st cell).block_statuses.length = st.block_statuses.length := by
  by_cases h0 : st.src_size - st.src_off = 0
  · rw [prepare_read_of_eof B cell h0]
  · rw [prepare_read_of_left B cell h0]
    simp [List.length_set]

theorem prepare_read_blk_ne {B : Nat} {st : CopyStatus} {cell c : Nat} (hcc : c ≠ cell) :
    blk (prepare_read_request B st cell) c = blk st c := by
  by_cases h0 : st.src_size - st.src_off = 0
  · rw [prepare_read_of_eof B cell h0]
  · rw [prepare_read_of_left B cell h0]
    simp only [blk]
    exact getD_set_ne _ _ _ (fun hh => hcc hh.symm)

theorem foldl_prepare_read_inv {src : List Nat} {B N : Nat} :
    ∀ (cs : List Nat) (st : CopyStatus), Inv src B N st →
      (∀ c ∈ cs, c < st.block_statuses.length ∧ (blk st c).stage = BLOCK_IDLE) →
      cs.Nodup →
      Inv src B N (cs.foldl (fun s c => prepare_read_request B s c) st)
  | [], _, hInv, _, _ => hInv
  | c :: cs, st, hInv, hcs, hnd => by
      have hc := (hcs c (List.mem_cons_self c cs)).1
      have hidle := (hcs c (List.mem_cons_self c cs)).2
      simp only [List.foldl_cons]
      apply foldl_prepare_read_inv cs _ (prepare_read_inv hInv hc hidle)
      · intro c' hc'
        have hcc : c' ≠ c := by
          intro hh
          exact (List.nodup_cons.mp hnd).1 (hh ▸ hc')
        constructor
        · rw [prepare_read_length]
          exact (hcs c' (List.mem_cons_of_mem c hc')).1
        · rw [prepare_read_blk_ne hcc]
          exact (hcs c' (List.mem_cons_of_mem c hc')).2
      · exact (List.nodup_cons.mp hnd).2

theorem blk_init (src_size N c : Nat) : blk (init_copying_status src_size N) c = idleBlock := by
  by_cases hc : c < N
  · rw [blk]
    show (List.replicate N idleBlock).getD c idleBlock = idleBlock
    rw [List.getD_eq_getElem _ _ (by simpa using hc), List.getElem_replicate]
  · rw [blk]
    refine getD_of_le _ _ ?_
    show (List.replicate N idleBlock).length ≤ c
    simpa using Nat.le_of_not_lt hc

theorem init_copying_status_inv (src : List Nat) (B N : Nat) :
    Inv src B N (init_copying_status src.length N) := by
  refine ⟨rfl, Nat.zero_le _, by simp [init_copying_status], ?_, ?_, ?_, ?_, ?_, ?_⟩
  · show 0 = countNonIdle _
    unfold countNonIdle
    symm
    rw [List.countP_eq_zero]
    intro b hb
    show ¬(!(b.stage == BLOCK_IDLE)) = true
    have : b = idleBlock := List.eq_of_mem_replicate hb
    subst this
    simp [idleBlock]
  · intro c hcne
    rw [blk_init] at hcne
    exact absurd rfl hcne
  · intro c hcne
    rw [blk_init] at hcne
    exact absurd rfl hcne
  · intro c hcw
    rw [blk_init] at hcw
    cases hcw
  · intro c hcne
    rw [blk_init] at hcne
    exact absurd rfl hcne
  · intro p hp
    cases hp

theorem init_inv (src : List Nat) (B N : Nat) : Inv src B N (initState src B N) := by
  unfold initState initial_reads
  apply foldl_prepare_read_inv _ _ (init_copying_status_inv src B N)
  · intro c hcmem
    have hlen : (init_copying_status src.length N).block_statuses.length = N := by
      simp [init_copying_status]
    rw [hlen] at hcmem ⊢
    exact ⟨List.mem_range.mp hcmem, by rw [blk_init]; rfl⟩
  · exact List.nodup_range _

theorem step_inv {src : List Nat} {B N : Nat} {st st' : CopyStatus}
    (hInv : Inv src B N st) (hstep : Step src B st st') : Inv src B N st' := by
  obtain ⟨cell, hdel⟩ := hstep
  cases hstage : (blk st cell).stage with
  | BLOCK_IDLE =>
      rw [deliver_of_idle src B hstage] at hdel
      cases hdel
  | BLOCK_IN_READ =>
      rw [deliver_of_in_read src B hstage] at hdel
      rw [Option.some_inj] at hdel
      rw [← hdel]
      exact read_step_inv hInv hstage
  | BLOCK_IN_WRITE =>
      rw [deliver_of_in_write src B hstage] at hdel
      rw [Option.some_inj] at hdel
      rw [← hdel]
      exact write_step_inv hInv hstage

theorem reachable_inv {src : List Nat} {B N : Nat} {st : CopyStatus}
    (h : Reachable src B N st) : Inv src B N st := by
  unfold Reachable at h
  induction h with
  | refl => exact init_inv src B N
  | tail _ hstep ih => exact step_inv ih hstep

theorem step_mono {src : List Nat} {B : Nat} {st st' : CopyStatus}
    (hstep : Step src B st st') : st.src_off ≤ st'.src_off := by
  obtain ⟨cell, hdel⟩ := hstep
  cases hstage : (blk st cell).stage with
  | BLOCK_IDLE =>
      rw [deliver_of_idle src B hstage] at hdel
      cases hdel
  | BLOCK_IN_READ =>
      rw [deliver_of_in_read src B hstage] at hdel
      rw [Option.some_inj] at hdel
      rw [← hdel]
      exact Nat.le_refl _
  | BLOCK_IN_WRITE =>
      rw [deliver_of_in_write src B hstage] at hdel
      rw [Option.some_inj] at hdel
      rw [← hdel]
      by_cases h0 : (finish_write_request (kernelWriteApply B st cell) cell).src_size
          - (finish_write_request (kernelWriteApply B st cell) cell).src_off = 0
      · rw [prepare_read_of_eof B cell h0]
        exact Nat.le_refl _
      · rw [prepare_read_of_left B cell h0]
        exact Nat.le_add_right _ _

theorem terminal_all_idle {src : List Nat} {B N : Nat} {st : CopyStatus}
    (hInv : Inv src B N st) (hT : Terminal st) :
    ∀ c, (blk st c).stage = BLOCK_IDLE := by
  intro c
  by_cases hc : c < st.block_statuses.length
  · have hcnt : countNonIdle st = 0 := by
      rw [← hInv.num_eq]
      exact hT.2
    unfold countNonIdle at hcnt
    rw [List.countP_eq_zero] at hcnt
    have hmem : blk st c ∈ st.block_statuses := by
      rw [blk, List.getD_eq_getElem _ _ hc]
      exact List.getElem_mem hc
    have := hcnt _ hmem
    simpa using this
  · rw [blk, getD_of_le _ _ (Nat.le_of_not_lt hc)]
    rfl

theorem deliverN_reachable {src : List Nat} {B : Nat} :
    ∀ {cs : List Nat} {st st' : CopyStatus}, deliverN src B cs st = some st' →
      Relation.ReflTransGen (Step src B) st st'
  | [], st, st', h => by
      simp [deliverN] at h
      exact h ▸ Relation.ReflTransGen.refl
  | c :: cs, st, st', h => by
      revert h
      simp only [deliverN]
      cases hdel : deliver src B st c with
      | none => intro h; cases h
      | some st₁ =>
          intro h
          exact Relation.ReflTransGen.head ⟨c, hdel⟩ (deliverN_reachable h)

theorem aioHandleEvent_write_eq (S_actual B : Nat) (st : AioState) (io : Iocb)
    (hw : io.isWrite = true) :
    aioHandleEvent S_actual B st io
      = aioHandleWriteCompletion B st io ((io.nbytes : Nat) : Int) := by
  unfold aioHandleEvent aioHandleWriteCompletion
  rw [hw]
  by_cases h1 : io.nbytes = 0 <;> by_cases h2 : st.src_off < st.src_size <;>
    simp [h1, h2, Int.natCast_eq_zero]

/-! ### Claims -/

/-- C2: for every pipeline state in which a slot is Idle and
`read_cursor < total_size`, submitting a read on that slot records on the
slot a length equal to `min(block_size, total_size - read_cursor)` and the
offset equal to the current `read_cursor`, advances `read_cursor` by exactly
that length, and sets the slot state to ReadPending (`BLOCK_IN_READ`). -/
theorem C2_submit_read_effects {B : Nat} {st : CopyStatus} {cell : Nat}
    (hc : cell < st.block_statuses.length)
    (hidle : (blk st cell).stage = BLOCK_IDLE)
    (hoff : st.src_off < st.src_size) :
    blk (prepare_read_request B st cell) cell
        = ⟨BLOCK_IN_READ, st.src_off, min B (st.src_size - st.src_off)⟩ ∧
      (prepare_read_request B st cell).src_off
        = st.src_off + min B (st.src_size - st.src_off) := by
  have h0 : st.src_size - st.src_off ≠ 0 := by omega
  rw [prepare_read_of_left B cell h0]
  constructor
  · simp only [blk]
    rw [getD_set_self _ _ _ _ hc, chunkSize_eq_min]
  · simp only [chunkSize_eq_min]

/-- Witness for C2 at a concrete idle state. -/
theorem C2_submit_read_effects_witness :
    blk (prepare_read_request 1 (init_copying_status 2 1) 0) 0
        = ⟨BLOCK_IN_READ, (init_copying_status 2 1).src_off,
            min 1 ((init_copying_status 2 1).src_size - (init_copying_status 2 1).src_off)⟩ ∧
      (prepare_read_request 1 (init_copying_status 2 1) 0).src_off
        = (init_copying_status 2 1).src_off
          + min 1 ((init_copying_status 2 1).src_size - (init_copying_status 2 1).src_off) :=
  C2_submit_read_effects (by decide) (by decide) (by decide)

/-- C9: calling `prepare_read_request` on a slot when `read_cursor` already
equals `total_size` is a no-op: the whole pipeline state, submission log
included, is returned unchanged. -/
theorem C9_submit_read_noop {B : Nat} {st : CopyStatus} (cell : Nat)
    (h : st.src_off = st.src_size) :
    prepare_read_request B st cell = st :=
  prepare_read_of_eof B cell (by omega)

/-- Witness for C9 at a concrete exhausted state. -/
theorem C9_submit_read_noop_witness :
    prepare_read_request 8192 (init_copying_status 0 64) 0 = init_copying_status 0 64 :=
  C9_submit_read_noop 0 rfl

/-- C10: a completion event naming a slot whose state is Idle triggers no
transition: the driver's dispatch returns the state unchanged, whatever the
result value; transitions happen only from `BLOCK_IN_READ` or
`BLOCK_IN_WRITE`. -/
theorem C10_idle_event_noop {B : Nat} {st : CopyStatus} {cell : Nat} (res : Int)
    (h : (blk st cell).stage = BLOCK_IDLE) :
    handle_event B st cell res = some st := by
  unfold handle_event
  rw [h]
  simp

/-- Witness for C10 at a concrete idle slot, with a negative result. -/
theorem C10_idle_event_noop_witness :
    handle_event 4 (init_copying_status 5 2) 0 (-3) = some (init_copying_status 5 2) :=
  C10_idle_event_noop (-3) (by decide)

/-- C5: in every reachable state of a run, the in-flight counter equals the
number of non-Idle slots and satisfies `0 ≤ count ≤ pool_size` (the lower
bound is inherent to `Nat`); hence no step raises it above `N`. -/
theorem C5_inflight_bound {src : List Nat} {B N : Nat} {st : CopyStatus}
    (hst : Reachable src B N st) :
    st.num_block_in_progress = countNonIdle st ∧ st.num_block_in_progress ≤ N := by
  have hInv := reachable_inv hst
  refine ⟨hInv.num_eq, ?_⟩
  rw [hInv.num_eq]
  calc countNonIdle st ≤ st.block_statuses.length := List.countP_le_length _
    _ = N := hInv.len_eq

/-- Witness for C5 at the concrete reachable state `initW`. -/
theorem C5_inflight_bound_witness :
    initW.num_block_in_progress = countNonIdle initW ∧ initW.num_block_in_progress ≤ 1 :=
  C5_inflight_bound Relation.ReflTransGen.refl

/-- C6 counterexample: the claim also asserts that at successful termination
the read cursor equals the source size `S` exactly; but a successful run of
the `linux-aio-cp.c` backend on a 4096-byte source terminates (the model
returns `some`) with its read cursor at 8192, not 4096. -/
theorem C6_counterexample :
    (aioMain 4096 AIO_READ_BLOCK_SIZE AIO_QUEUE_SIZE 10).map AioState.src_off = some 8192 ∧
      (8192 : Nat) ≠ 4096 := by
  constructor
  · decide
  · decide

/-- C6 amended: in every reachable state of an io-uring run, the read cursor
satisfies `0 ≤ read_cursor ≤ total_size`, it never decreases across a step,
and at successful termination it equals `total_size`, which for this backend
is exactly the source size `S`; the block-aligned backends instead finish
with the cursor at the block-rounded tracked size, which is strictly larger
than `S`. -/
theorem C6_cursor_amended {src : List Nat} {B N : Nat} {st : CopyStatus}
    (hst : Reachable src B N st) :
    st.src_off ≤ st.src_size ∧ st.src_size = src.length ∧
      (∀ st', Step src B st st' → st.src_off ≤ st'.src_off) ∧
      (Terminal st → st.src_off = src.length) := by
  have hInv := reachable_inv hst
  exact ⟨hInv.off_le, hInv.size_eq, fun _ h => step_mono h,
    fun hT => hT.1.trans hInv.size_eq⟩

/-- Witness for C6 at the concrete reachable state `initW`. -/
theorem C6_cursor_amended_witness :
    initW.src_off ≤ initW.src_size ∧ initW.src_size = srcW.length ∧
      (∀ st', Step srcW 1 initW st' → initW.src_off ≤ st'.src_off) ∧
      (Terminal initW → initW.src_off = srcW.length) :=
  C6_cursor_amended Relation.ReflTransGen.refl

/-- C7: on a read completion the driver aborts fatally on a negative result;
otherwise the slot moves to WritePending and a write is submitted at the
same file offset and with the same requested length (`READ_BLOCK_SIZE`) as
the slot's read, whose SQE is in the submission log. -/
theorem C7_read_completion {src : List Nat} {B N : Nat} {st : CopyStatus} {cell : Nat}
    (res : Int) (hst : Reachable src B N st)
    (hr : (blk st cell).stage = BLOCK_IN_READ) :
    (res < 0 → handle_event B st cell res = none) ∧
    (0 ≤ res →
      handle_event B st cell res = some (prepare_write_request B st cell) ∧
      (blk (prepare_write_request B st cell) cell).stage = BLOCK_IN_WRITE ∧
      (prepare_write_request B st cell).submitted
        = st.submitted ++ [⟨true, cell, (blk st cell).offset, B⟩] ∧
      (⟨false, cell, (blk st cell).offset, B⟩ : Sqe) ∈ st.submitted) := by
  have hne : (blk st cell).stage ≠ BLOCK_IDLE := by simp [hr]
  have hc : cell < st.block_statuses.length := blk_lt_of_ne_idle hne
  have hInv := reachable_inv hst
  constructor
  · intro hres
    simp [handle_event, hr, hres]
  · intro hres
    refine ⟨by simp [handle_event, hr, Int.not_lt.mpr hres], ?_, rfl, hInv.log_ok cell hne⟩
    simp only [blk, prepare_write_blocks]
    rw [getD_set_self _ _ _ _ hc]

/-- Witness for C7 at the concrete reachable state `initW`, once with a
negative and once with a non-negative result. -/
theorem C7_read_completion_witness :
    (handle_event 1 initW 0 (-2) = none) ∧
    (handle_event 1 initW 0 1 = some (prepare_write_request 1 initW 0) ∧
      (blk (prepare_write_request 1 initW 0) 0).stage = BLOCK_IN_WRITE ∧
      (prepare_write_request 1 initW 0).submitted
        = initW.submitted ++ [⟨true, 0, (blk initW 0).offset, 1⟩] ∧
      (⟨false, 0, (blk initW 0).offset, 1⟩ : Sqe) ∈ initW.submitted) :=
  ⟨(C7_read_completion (-2) Relation.ReflTransGen.refl (by decide)).1 (by decide),
   (C7_read_completion 1 Relation.ReflTransGen.refl (by decide)).2 (by decide)⟩

/-- C1: for every source content of size `S`, block size `B ≥ 1` and pool
size `N ≥ 1`, if the io-uring copy pipeline runs to successful termination
then the destination contents after the external truncation to `S` are
byte-for-byte equal to the source, including when `B` does not divide `S`. -/
theorem C1_copy_correct {src : List Nat} {B N : Nat} {st : CopyStatus}
    (hB : 0 < B) (hN : 1 ≤ N)
    (hst : Reachable src B N st) (hT : Terminal st) :
    truncatedDst st = src := by
  have hInv := reachable_inv hst
  have hall := terminal_all_idle hInv hT
  have hS : st.src_size = src.length := hInv.size_eq
  unfold truncatedDst
  apply List.ext_getElem
  · simp [hS]
  · intro p h1 h2
    rw [List.getElem_map, List.getElem_range]
    have hp_off : p < st.src_off := by
      have hoff : st.src_off = st.src_size := hT.1
      omega
    rcases hInv.cover p hp_off with hok | ⟨c, hcne, _, _⟩
    · rw [hok, List.getD_eq_getElem _ _ h2]
    · exact absurd (hall c) hcne

/-- Witness for C1: a full concrete run on the two-byte source `srcW` with
`B = 1`, `N = 1`. -/
theorem C1_copy_correct_witness :
    0 < 1 ∧ 1 ≤ 1 ∧ truncatedDst finalW = srcW :=
  ⟨Nat.one_pos, Nat.le_refl 1,
    C1_copy_correct Nat.one_pos (Nat.le_refl 1)
      (deliverN_reachable
        (show deliverN srcW 1 [0, 0, 0, 0] initW = some finalW from rfl))
      ⟨by decide, by decide⟩⟩

/-- C3 counterexample: the claim asserts that a write completion whose
result differs from the requested length aborts fatally; but the driver of
`io-uring-cp.c` accepts the short non-negative result 0 (requested length
8192) without aborting. -/
theorem C3_counterexample :
    (0 : Int) ≠ ((8192 : Nat) : Int) ∧ ¬ ((0 : Int) < 0) ∧
      (handle_event 8192 stShortWrite 0 0).isSome = true := by
  refine ⟨by decide, by decide, ?_⟩
  rfl

/-- C3 amended: neither cited driver compares a write-completion result
against the requested length.  The io-uring driver aborts fatally exactly on
a negative result; any non-negative result — even one that differs from the
requested length — is accepted, and then, if `read_cursor < total_size`, the
slot is immediately reused for a new read (`BLOCK_IN_READ`), else the slot
becomes Idle and the in-flight count is decremented by one.  The linux-aio
driver (lines 172-190) never aborts on a write completion: it tests only
`bytes_written != 0 && src_off < src_size`, so a negative result is handled
exactly like a successful nonzero write, and a zero result retires the slot
(decrementing the in-flight count, submitting nothing, leaving the cursor in
place) even while `read_cursor < total_size`. -/
theorem C3_write_completion_amended {B : Nat} {st : CopyStatus} {cell : Nat} (res : Int)
    (hw : (blk st cell).stage = BLOCK_IN_WRITE)
    (hc : cell < st.block_statuses.length) :
    (res < 0 → handle_event B st cell res = none) ∧
    (0 ≤ res →
      handle_event B st cell res
        = some (prepare_read_request B (finish_write_request st cell) cell) ∧
      (st.src_off < st.src_size →
        (blk (prepare_read_request B (finish_write_request st cell) cell) cell).stage
          = BLOCK_IN_READ) ∧
      (st.src_size ≤ st.src_off →
        (blk (prepare_read_request B (finish_write_request st cell) cell) cell).stage
          = BLOCK_IDLE ∧
        (prepare_read_request B (finish_write_request st cell) cell).num_block_in_progress
          = st.num_block_in_progress - 1)) ∧
    (∀ (B₂ : Nat) (st₂ : AioState) (io : Iocb) (wres : Int), wres < 0 →
      aioHandleWriteCompletion B₂ st₂ io wres = aioHandleWriteCompletion B₂ st₂ io 1) ∧
    (∀ (B₂ : Nat) (st₂ : AioState) (io : Iocb), st₂.src_off < st₂.src_size →
      aioHandleWriteCompletion B₂ st₂ io 0
        = { st₂ with
            writes := st₂.writes ++ [(io.offset, io.nbytes)],
            num_io_reqs := st₂.num_io_reqs - 1 }) := by
  have hc' : cell < (finish_write_request st cell).block_statuses.length := by
    simp only [finish_write_blocks, List.length_set]
    exact hc
  refine ⟨?_, ?_, ?_, ?_⟩
  · intro hres
    simp [handle_event, hw, hres]
  · intro hres
    refine ⟨by simp [handle_event, hw, Int.not_lt.mpr hres], ?_, ?_⟩
    · intro hlt
      have h0 : (finish_write_request st cell).src_size
          - (finish_write_request st cell).src_off ≠ 0 := by
        simp only [finish_write_src_size, finish_write_src_off]
        omega
      rw [prepare_read_of_left B cell h0]
      simp only [blk]
      rw [getD_set_self _ _ _ _ (by simpa [List.length_set] using hc)]
    · intro hge
      have h0 : (finish_write_request st cell).src_size
          - (finish_write_request st cell).src_off = 0 := by
        simp only [finish_write_src_size, finish_write_src_off]
        omega
      rw [prepare_read_of_eof B cell h0]
      constructor
      · simp only [blk, finish_write_blocks]
        rw [getD_set_self _ _ _ _ hc]
      · rfl
  · intro B₂ st₂ io wres hneg
    unfold aioHandleWriteCompletion
    have hne : wres ≠ 0 := by omega
    have hone : (1 : Int) ≠ 0 := by omega
    by_cases h2 : st₂.src_off < st₂.src_size
    · rw [if_pos ⟨hne, h2⟩, if_pos ⟨hone, h2⟩]
    · rw [if_neg (fun hh => h2 hh.2), if_neg (fun hh => h2 hh.2)]
  · intro B₂ st₂ io h2
    unfold aioHandleWriteCompletion
    rw [if_neg (fun hh => hh.1 rfl)]

/-- Witness for C3 amended, at the concrete io-uring state `stShortWrite`
(cursor 8192 < 20000, so the slot is reused for a read), once with a
negative and once with a non-negative result, and at the concrete linux-aio
state `aioStW` (cursor 8192 < tracked 24576) with a negative and a zero
write result. -/
theorem C3_write_completion_amended_witness :
    (handle_event 8192 stShortWrite 0 (-5) = none) ∧
    (handle_event 8192 stShortWrite 0 0
        = some (prepare_read_request 8192 (finish_write_request stShortWrite 0) 0) ∧
      (stShortWrite.src_off < stShortWrite.src_size →
        (blk (prepare_read_request 8192 (finish_write_request stShortWrite 0) 0) 0).stage
          = BLOCK_IN_READ) ∧
      (stShortWrite.src_size ≤ stShortWrite.src_off →
        (blk (prepare_read_request 8192 (finish_write_request stShortWrite 0) 0) 0).stage
          = BLOCK_IDLE ∧
        CopyStatus.num_block_in_progress
            (prepare_read_request 8192 (finish_write_request stShortWrite 0) 0)
          = stShortWrite.num_block_in_progress - 1)) ∧
    (aioHandleWriteCompletion 8192 aioStW ioW (-5)
      = aioHandleWriteCompletion 8192 aioStW ioW 1) ∧
    (aioStW.src_off < aioStW.src_size ∧
      aioHandleWriteCompletion 8192 aioStW ioW 0
        = { aioStW with
            writes := aioStW.writes ++ [(ioW.offset, ioW.nbytes)],
            num_io_reqs := aioStW.num_io_reqs - 1 }) :=
  ⟨(@C3_write_completion_amended 8192 stShortWrite 0 (-5) (by decide) (by decide)).1
     (by decide),
   (@C3_write_completion_amended 8192 stShortWrite 0 0 (by decide) (by decide)).2.1
     (by decide),
   (@C3_write_completion_amended 8192 stShortWrite 0 0 (by decide) (by decide)).2.2.1
     8192 aioStW ioW (-5) (by decide),
   ⟨by decide,
    (@C3_write_completion_amended 8192 stShortWrite 0 0 (by decide) (by decide)).2.2.2
      8192 aioStW ioW (by decide)⟩⟩

/-- C8 counterexample: the claim asserts that for `S = 0` the pipeline
issues zero read submissions and the destination ends as an empty 0-byte
file; but a run of the `linux-aio-cp.c` backend on an empty source issues
exactly one read, and the truncation size it hands to
`close_src_dst_files` is 8192, so the destination ends as an 8192-byte
file. -/
theorem C8_counterexample :
    (aioMain 0 AIO_READ_BLOCK_SIZE AIO_QUEUE_SIZE 10).map AioState.reads_issued = some 1 ∧
      (1 : Nat) ≠ 0 ∧
      (aioMain 0 AIO_READ_BLOCK_SIZE AIO_QUEUE_SIZE 10).map aioTruncateArg = some 8192 ∧
      (8192 : Nat) ≠ 0 := by
  refine ⟨by decide, by decide, by decide, by decide⟩

/-- C8 amended: for the io-uring pipeline, a source of size `S = 0` leads to
zero read submissions, the state before the completion loop is already
terminal (the loop exits immediately), and the destination after truncation
to 0 is the empty file; the block-aligned backends instead issue one
EOF-detecting read and truncate the destination to one block. -/
theorem C8_empty_source_amended (B N : Nat) :
    (initState [] B N).submitted = [] ∧ Terminal (initState [] B N) ∧
      truncatedDst (initState [] B N) = [] := by
  have hinit : initState [] B N = init_copying_status 0 N := by
    unfold initState initial_reads
    show (List.range ((init_copying_status 0 N).block_statuses.length)).foldl
        (fun s c => prepare_read_request B s c) (init_copying_status 0 N)
      = init_copying_status 0 N
    generalize List.range ((init_copying_status 0 N).block_statuses.length) = cs
    induction cs with
    | nil => rfl
    | cons c cs ih =>
        rw [List.foldl_cons, prepare_read_of_eof B c
          (show (init_copying_status 0 N).src_size - (init_copying_status 0 N).src_off = 0
            from rfl)]
        exact ih
  rw [hinit]
  exact ⟨rfl, ⟨rfl, rfl⟩, rfl⟩

/-- C4: evaluation of the size bookkeeping of `linux-aio-cp.c` at the
failing inputs.  The rounding of line 110 maps the already-aligned size 8192
to 16384 (the claim says the tracked size stays 8192), and a run on a
100-byte source hands 8192 — not 100 — to `close_src_dst_files` as the
truncation size, because line 198 passes the mutated `src_size`. -/
theorem C4_rounding_and_truncation_eval :
    aioRound 8192 AIO_READ_BLOCK_SIZE = 16384 ∧
      aioRound 100 AIO_READ_BLOCK_SIZE = 8192 ∧
      (aioMain 100 AIO_READ_BLOCK_SIZE AIO_QUEUE_SIZE 10).map aioTruncateArg = some 8192 ∧
      (8192 : Nat) ≠ 100 := by
  refine ⟨by decide, by decide, by decide, by decide⟩

end AsyncCp
